import Mathlib

/-!
Verification of the particle-network animation and the scroll-reveal system of
the obsidian-ultimate-guide page component
(src/components/obsidian-ultimate-guide.tsx), as a shallow embedding in Lean.

Numeric canvas quantities (coordinates, velocities, radii, canvas dimensions)
are embedded as rationals; the Euclidean distance of the connection pass is a
real number obtained through Real.sqrt, exactly as the source computes
Math.sqrt(dx*dx + dy*dy).
-/

namespace ObsidianGuide

/-- A particle of the hero-background animation, mirroring the fields of the
source class Particle: position (x, y), velocity (vx, vy) and radius (the
source calls the radius field size). -/
structure Particle where
  x : ℚ
  y : ℚ
  vx : ℚ
  vy : ℚ
  size : ℚ
deriving DecidableEq

/-- Particle.update from the source: first advance the position by the
velocity (x += vx, y += vy), then invert vx when the new x lies outside
[0, width] and invert vy when the new y lies outside [0, height]; the
position itself is left where it moved (no clamping). -/
def update (w h : ℚ) (p : Particle) : Particle :=
  let x := p.x + p.vx
  let y := p.y + p.vy
  { x := x
    y := y
    vx := if x < 0 ∨ x > w then -p.vx else p.vx
    vy := if y < 0 ∨ y > h then -p.vy else p.vy
    size := p.size }

/-- The closed horizontal band [0, w] against which Particle.update checks the
updated x coordinate; the y coordinate is checked against [0, h] in the same
way. -/
def insideX (w x : ℚ) : Prop := 0 ≤ x ∧ x ≤ w

/-- The pair enumeration of the connection pass from the source: the outer
forEach visits p1 at index i and the inner forEach visits every element of
particles.slice(i + 1), so each list position is paired with every later
position, once. -/
def pairsList {α : Type} : List α → List (α × α)
  | [] => []
  | p :: rest => (rest.map fun q => (p, q)) ++ pairsList rest

/-- The Euclidean distance the connection pass computes for a pair:
Math.sqrt(dx * dx + dy * dy) on the rational coordinates. -/
noncomputable def pairDistance (p1 p2 : Particle) : ℝ :=
  Real.sqrt (((p1.x - p2.x) * (p1.x - p2.x) + (p1.y - p2.y) * (p1.y - p2.y) : ℚ) : ℝ)

/-- The per-pair decision of the connection pass from the source: when the
distance is below 150 a line is drawn with stroke opacity 1 - distance / 150,
otherwise nothing is drawn for this pair. -/
noncomputable def connectionLine (p1 p2 : Particle) : Option ℝ :=
  if pairDistance p1 p2 < 150 then some (1 - pairDistance p1 p2 / 150) else none

/-- One entry delivered to the IntersectionObserver callback: the id of the
observed section and whether the browser reports it as intersecting. -/
structure Entry where
  targetId : String
  isIntersecting : Bool
deriving DecidableEq

/-- Reading the isVisible state object at a key: the JS object is embedded as
the list of its bindings, newest first; a key never written is absent and
reads as undefined, which the class-name computation treats as false. -/
def lookupVis : List (String × Bool) → String → Bool
  | [], _ => false
  | (k, v) :: m, id => if id = k then v else lookupVis m id

/-- The observer callback body from the source, per entry: when the entry is
intersecting, merge the binding target-id ↦ true over the previous state
(setIsVisible prev ↦ \x7b ...prev, [entry.target.id]: true \x7d); a
non-intersecting entry changes nothing. -/
def applyEntry (m : List (String × Bool)) (e : Entry) : List (String × Bool) :=
  if e.isIntersecting then (e.targetId, true) :: m else m

/-- One callback invocation processes its delivered entries in order. -/
def applyEntries (m : List (String × Bool)) (es : List Entry) : List (String × Bool) :=
  es.foldl applyEntry m

/-- The visibility threshold from the source observer configuration. -/
def observerThreshold : ℚ := 1/10

/-- Modelled from the spec: the browser IntersectionObserver is host machinery
outside this repository; per the spec contract it reports a watched section as
intersecting exactly when the observed visible fraction is at or above the
configured threshold. -/
def deliver (id : String) (fraction : ℚ) : Entry :=
  ⟨id, decide (observerThreshold ≤ fraction)⟩

/-- The fixed particle count from the source. -/
def particleCount : ℕ := 80

/-- The Particle constructor from the source, with the five Math.random draws
made explicit: x = r1 * width, y = r2 * height, vx = (r3 - 0.5) * 0.5,
vy = (r4 - 0.5) * 0.5, and radius r5 * 2 + 1. -/
def mkParticle (w h r1 r2 r3 r4 r5 : ℚ) : Particle :=
  { x := r1 * w
    y := r2 * h
    vx := (r3 - 1/2) * (1/2)
    vy := (r4 - 1/2) * (1/2)
    size := r5 * 2 + 1 }

/-- The creation loop from the source: particleCount constructor calls are
pushed into the array, the i-th call consuming the next five draws of the
random stream. -/
def initParticles (w h : ℚ) (rand : ℕ → ℚ) : List Particle :=
  (List.range particleCount).map fun i =>
    mkParticle w h (rand (5*i)) (rand (5*i+1)) (rand (5*i+2)) (rand (5*i+3)) (rand (5*i+4))

/-- The per-frame pass of the animate loop over the particle array: every
particle is updated in place; the array itself is never grown or shrunk. -/
def stepParticles (w h : ℚ) (ps : List Particle) : List Particle :=
  ps.map (update w h)

/-- The observable state of the canvas element at effect time: its layout
dimensions and whether a 2d context can be acquired from it. -/
structure Canvas where
  width : ℚ
  height : ℚ
  ctxAvailable : Bool

/-- What the particle-animation effect has set up once it runs to the end of
its body. -/
structure EffectSetup where
  particles : List Particle
  resizeListener : Bool
  frameLoopStarted : Bool

/-- The particle-animation effect body from the source: it returns early —
setting nothing up and raising nothing — when the canvas ref is null or when
getContext fails; otherwise it sizes the canvas, installs the resize
listener, creates the particles and starts the animation loop. -/
def particleEffectSetup (canvas : Option Canvas) (rand : ℕ → ℚ) : Option EffectSetup :=
  match canvas with
  | none => none
  | some c =>
    if c.ctxAvailable then
      some { particles := initParticles c.width c.height rand
             resizeListener := true
             frameLoopStarted := true }
    else none

/-- The particles a setup outcome created: none when the effect bailed out. -/
def setupParticles : Option EffectSetup → List Particle
  | none => []
  | some s => s.particles

/-- Whether a setup outcome installed the resize listener. -/
def setupListener : Option EffectSetup → Bool
  | none => false
  | some s => s.resizeListener

/-- Whether a setup outcome started the frame loop. -/
def setupLoop : Option EffectSetup → Bool
  | none => false
  | some s => s.frameLoopStarted

/-- The mutable state the two effects own after mount: whether an animation
frame is scheduled, whether the resize listener is installed, whether the
observer is connected, the stored canvas bounds, the particle array and the
visibility record. -/
structure SysState where
  frameScheduled : Bool
  resizeListener : Bool
  observerConnected : Bool
  width : ℚ
  height : ℚ
  particles : List Particle
  vis : List (String × Bool)

/-- The events the hosting page can deliver after mount. -/
inductive Event where
  | frame
  | resize (w h : ℚ)
  | intersections (es : List Entry)
  | teardown

/-- Event dispatch.  The teardown arm is the source cleanup: it cancels the
scheduled animation frame, removes the resize listener and disconnects the
observer.  The other arms follow the spec contract for the host services: the
frame scheduler fires the animate callback only while a frame is scheduled
(animate re-requests itself, so the flag stays set until cancelled), the
resize handler runs only while the listener is installed, and the observer
callback runs only while the observer is connected. -/
def stepEvent (s : SysState) : Event → SysState
  | .frame =>
      if s.frameScheduled then
        { s with particles := stepParticles s.width s.height s.particles }
      else s
  | .resize w h => if s.resizeListener then { s with width := w, height := h } else s
  | .intersections es =>
      if s.observerConnected then { s with vis := applyEntries s.vis es } else s
  | .teardown =>
      { s with frameScheduled := false, resizeListener := false,
               observerConnected := false }

/-- A whole delivered event sequence, in order. -/
def runEvents (s : SysState) (evs : List Event) : SysState :=
  evs.foldl stepEvent s

/-- One drawing command issued to the 2d context during a frame. -/
inductive DrawCmd where
  | trailOverlay (w h : ℚ)
  | circle (x y radius : ℚ)
  | segment (x1 y1 x2 y2 : ℚ) (opacity : ℝ)

/-- The interleaved first pass of the source animate loop: the forEach updates
each particle and immediately draws its circle before moving to the next
particle. -/
def updateDrawPass (w h : ℚ) (ps : List Particle) : List Particle × List DrawCmd :=
  ps.foldl
    (fun acc p =>
      let q := update w h p
      (acc.1 ++ [q], acc.2 ++ [DrawCmd.circle q.x q.y q.size]))
    ([], [])

/-- The connection pass of a frame over a particle list. -/
noncomputable def connectionCmds (ps : List Particle) : List DrawCmd :=
  (pairsList ps).filterMap fun q =>
    (connectionLine q.1 q.2).map fun o => DrawCmd.segment q.1.x q.1.y q.2.x q.2.y o

/-- One whole frame exactly as the source animate body runs it: the translucent
trail overlay, then the interleaved update-and-draw pass, then the connection
pass over the already-updated particles. -/
noncomputable def animateFrame (w h : ℚ) (ps : List Particle) :
    List Particle × List DrawCmd :=
  ((updateDrawPass w h ps).1,
    DrawCmd.trailOverlay w h ::
      ((updateDrawPass w h ps).2 ++ connectionCmds (updateDrawPass w h ps).1))

/-- The frame as the spec words it: first advance every particle, then draw
every circle at its post-update position, then run the connection pass on the
post-update positions. -/
noncomputable def animateFrameSpec (w h : ℚ) (ps : List Particle) :
    List Particle × List DrawCmd :=
  (ps.map (update w h),
    DrawCmd.trailOverlay w h ::
      (((ps.map (update w h)).map fun p => DrawCmd.circle p.x p.y p.size) ++
        connectionCmds (ps.map (update w h))))

theorem mem_pairsList {α : Type} {l : List α} {q : α × α} (h : q ∈ pairsList l) :
    q.1 ∈ l ∧ q.2 ∈ l := by
  induction l with
  | nil => simp [pairsList] at h
  | cons a t ih =>
    simp only [pairsList, List.mem_append, List.mem_map] at h
    rcases h with ⟨b, hb, hq⟩ | h
    · cases hq
      exact ⟨List.mem_cons_self a t, List.mem_cons_of_mem a hb⟩
    · obtain ⟨h1, h2⟩ := ih h
      exact ⟨List.mem_cons_of_mem a h1, List.mem_cons_of_mem a h2⟩

theorem count_eq_one_of_nodup_mem {α : Type} [BEq α] [LawfulBEq α] {l : List α}
    (hl : l.Nodup) {a : α} (ha : a ∈ l) : l.count a = 1 := by
  induction l with
  | nil => cases ha
  | cons b t ih =>
    obtain ⟨hbt, hnd⟩ := List.nodup_cons.mp hl
    rcases List.mem_cons.mp ha with rfl | hat
    · have h0 : t.count a = 0 := List.count_eq_zero.mpr hbt
      simp [List.count_cons, h0]
    · have hba : ¬ (b == a) = true := by
        simp only [beq_iff_eq]
        intro hba
        exact hbt (by rw [hba]; exact hat)
      simp [List.count_cons, ih hnd hat, hba]

theorem count_map_pair {α : Type} [BEq α] [LawfulBEq α] [DecidableEq α]
    (a x y : α) (t : List α) :
    (t.map fun b => (a, b)).count (x, y) = if x = a then t.count y else 0 := by
  induction t with
  | nil => simp
  | cons c t ih =>
    simp only [List.map_cons, List.count_cons, ih, beq_iff_eq, Prod.mk.injEq]
    by_cases hx : x = a <;> by_cases hy : y = c <;>
      simp [hx, hy, Ne.symm, eq_comm]

theorem count_pairsList_add {α : Type} [BEq α] [LawfulBEq α] [DecidableEq α]
    {l : List α} (hl : l.Nodup)
    {x y : α} (hxy : x ≠ y) (hx : x ∈ l) (hy : y ∈ l) :
    (pairsList l).count (x, y) + (pairsList l).count (y, x) = 1 := by
  induction l with
  | nil => cases hx
  | cons a t ih =>
    obtain ⟨hat, hnd⟩ := List.nodup_cons.mp hl
    simp only [pairsList, List.count_append, count_map_pair]
    by_cases hxa : x = a
    · have hyt : y ∈ t := by
        rcases List.mem_cons.mp hy with h | h
        · exact absurd (hxa.trans h.symm) hxy
        · exact h
      have hya : ¬ y = a := fun h => hxy (hxa.trans h.symm)
      have c1 : t.count y = 1 := count_eq_one_of_nodup_mem hnd hyt
      have c2 : (pairsList t).count (x, y) = 0 :=
        List.count_eq_zero.mpr fun hmem => hat (hxa ▸ (mem_pairsList hmem).1)
      have c3 : (pairsList t).count (y, x) = 0 :=
        List.count_eq_zero.mpr fun hmem => hat (hxa ▸ (mem_pairsList hmem).2)
      rw [if_pos hxa, if_neg hya, c1, c2, c3]
    · by_cases hya : y = a
      · have hxt : x ∈ t := by
          rcases List.mem_cons.mp hx with h | h
          · exact absurd h hxa
          · exact h
        have c1 : t.count x = 1 := count_eq_one_of_nodup_mem hnd hxt
        have c2 : (pairsList t).count (x, y) = 0 :=
          List.count_eq_zero.mpr fun hmem => hat (hya ▸ (mem_pairsList hmem).2)
        have c3 : (pairsList t).count (y, x) = 0 :=
          List.count_eq_zero.mpr fun hmem => hat (hya ▸ (mem_pairsList hmem).1)
        rw [if_neg hxa, if_pos hya, c1, c2, c3]
      · have hxt : x ∈ t := by
          rcases List.mem_cons.mp hx with h | h
          · exact absurd h hxa
          · exact h
        have hyt : y ∈ t := by
          rcases List.mem_cons.mp hy with h | h
          · exact absurd h hya
          · exact h
        rw [if_neg hxa, if_neg hya]
        simpa using ih hnd hxt hyt

theorem pairsList_map {α β : Type} (f : α → β) :
    ∀ l : List α, pairsList (l.map f) = (pairsList l).map fun q => (f q.1, f q.2)
  | [] => rfl
  | a :: t => by
    simp only [List.map_cons, pairsList, pairsList_map f t, List.map_append,
      List.map_map]
    rfl

theorem nodup_enum {α : Type} (l : List α) : l.enum.Nodup :=
  List.Nodup.of_map Prod.fst (by rw [List.enum_map_fst]; exact List.nodup_range _)

theorem lookupVis_applyEntries_false {id : String} :
    ∀ (es : List Entry) (m : List (String × Bool)),
      lookupVis m id = false →
      (∀ e ∈ es, e.targetId = id → e.isIntersecting = false) →
      lookupVis (applyEntries m es) id = false
  | [], _, hm, _ => hm
  | e :: t, m, hm, hes => by
    have ht : ∀ x ∈ t, x.targetId = id → x.isIntersecting = false :=
      fun x hx => hes x (List.mem_cons_of_mem _ hx)
    refine lookupVis_applyEntries_false t (applyEntry m e) ?_ ht
    unfold applyEntry
    by_cases hi : e.isIntersecting = true
    · rw [if_pos hi]
      have hne : ¬ id = e.targetId := by
        intro hid
        have hfalse := hes e (List.mem_cons_self e t) hid.symm
        rw [hfalse] at hi
        cases hi
      simp [lookupVis, hne, hm]
    · rw [if_neg hi]
      exact hm

theorem stepEvent_inactive {s : SysState} (hf : s.frameScheduled = false)
    (hr : s.resizeListener = false) (ho : s.observerConnected = false) :
    ∀ e : Event, stepEvent s e = s := by
  intro e
  cases e with
  | frame => simp [stepEvent, hf]
  | resize w h => simp [stepEvent, hr]
  | intersections es => simp [stepEvent, ho]
  | teardown =>
    cases s
    simp_all [stepEvent]

theorem updateDrawPass_go (w h : ℚ) :
    ∀ (ps : List Particle) (a : List Particle) (b : List DrawCmd),
      ps.foldl
        (fun acc p =>
          let q := update w h p
          (acc.1 ++ [q], acc.2 ++ [DrawCmd.circle q.x q.y q.size]))
        (a, b) =
      (a ++ ps.map (update w h),
        b ++ (ps.map (update w h)).map fun p => DrawCmd.circle p.x p.y p.size)
  | [], a, b => by simp
  | p :: t, a, b => by
    simp only [List.foldl_cons, List.map_cons]
    rw [updateDrawPass_go w h t (a ++ [update w h p])
      (b ++ [DrawCmd.circle (update w h p).x (update w h p).y (update w h p).size])]
    simp [List.append_assoc]

theorem updateDrawPass_eq (w h : ℚ) (ps : List Particle) :
    updateDrawPass w h ps =
      (ps.map (update w h),
        (ps.map (update w h)).map fun p => DrawCmd.circle p.x p.y p.size) := by
  unfold updateDrawPass
  rw [updateDrawPass_go w h ps [] []]
  simp

/-- C1: each per-frame update advances the position by the velocity, then
inverts vx exactly when the new x lies outside [0, width] and vy exactly when
the new y lies outside [0, height], never clamping the position; concretely,
on an 800-wide surface a particle at x = 799 with vx = 0.5 moves to 799.5
with no inversion, while a particle at x = 799.9 with vx = 0.5 moves to
800.4 and its vx becomes -0.5. -/
theorem C1_update_advances_then_bounces :
    (∀ (w h : ℚ) (p : Particle),
      (update w h p).x = p.x + p.vx ∧
      (update w h p).y = p.y + p.vy ∧
      (update w h p).vx =
        (if p.x + p.vx < 0 ∨ p.x + p.vx > w then -p.vx else p.vx) ∧
      (update w h p).vy =
        (if p.y + p.vy < 0 ∨ p.y + p.vy > h then -p.vy else p.vy) ∧
      (update w h p).size = p.size) ∧
    update 800 600 ⟨799, 300, 1/2, 0, 2⟩ = ⟨1599/2, 300, 1/2, 0, 2⟩ ∧
    update 800 600 ⟨7999/10, 300, 1/2, 0, 2⟩ = ⟨4002/5, 300, -(1/2), 0, 2⟩ := by
  refine ⟨fun w h p => ⟨rfl, rfl, rfl, rfl, rfl⟩, ?_, ?_⟩ <;>
    norm_num [update, Particle.mk.injEq]

/-- C3 counterexample: the update is a soft bounce and does not keep particles
inside the surface.  The particle at x = 799.9 with vx = 0.5 starts inside
[0, 800] × [0, 600] but its updated x is 800.4 > 800, so in-bounds is not
preserved by the per-frame update. -/
theorem C3_counterexample_overshoot :
    ((0:ℚ) ≤ 7999/10 ∧ (7999/10 : ℚ) ≤ 800 ∧ (0:ℚ) ≤ 300 ∧ (300:ℚ) ≤ 600) ∧
    (update 800 600 ⟨7999/10, 300, 1/2, 0, 2⟩).x > 800 := by
  norm_num [update]

/-- C3 amended: from an in-bounds position a single update keeps each
coordinate within the surface bounds enlarged by the velocity magnitude:
x lands in [-|vx|, width + |vx|] and y in [-|vy|, height + |vy|]; exact
in-bounds is not an invariant (one-step overshoot by at most the speed). -/
theorem C3_amended_soft_bounds (w h b : ℚ) (p : Particle)
    (hx0 : 0 ≤ p.x) (hxw : p.x ≤ w) (hy0 : 0 ≤ p.y) (hyh : p.y ≤ h)
    (hvx : |p.vx| ≤ b) (hvy : |p.vy| ≤ b) :
    -b ≤ (update w h p).x ∧ (update w h p).x ≤ w + b ∧
    -b ≤ (update w h p).y ∧ (update w h p).y ≤ h + b := by
  have hx := abs_le.mp hvx
  have hy := abs_le.mp hvy
  have ex : (update w h p).x = p.x + p.vx := rfl
  have ey : (update w h p).y = p.y + p.vy := rfl
  rw [ex, ey]
  refine ⟨by linarith [hx.1], by linarith [hx.2], by linarith [hy.1], by linarith [hy.2]⟩

/-- Witness for C3 amended at the concrete overshoot particle. -/
theorem C3_amended_soft_bounds_witness :
    -(1/2 : ℚ) ≤ (update 800 600 ⟨7999/10, 300, 1/2, 0, 2⟩).x ∧
    (update 800 600 ⟨7999/10, 300, 1/2, 0, 2⟩).x ≤ 800 + 1/2 ∧
    -(1/2 : ℚ) ≤ (update 800 600 ⟨7999/10, 300, 1/2, 0, 2⟩).y ∧
    (update 800 600 ⟨7999/10, 300, 1/2, 0, 2⟩).y ≤ 600 + 1/2 :=
  C3_amended_soft_bounds 800 600 (1/2) ⟨7999/10, 300, 1/2, 0, 2⟩
    (by norm_num) (by norm_num) (by norm_num) (by norm_num)
    (by rw [abs_le]; norm_num) (by rw [abs_le]; norm_num)

/-- C4 counterexample: after a resize shrinks the stored width to 800, a
particle stranded at x = 900 has all of its positions outside [0, 800] — it
never crosses the boundary — yet its vx sign inverts on the first update and
inverts again on the very next one, so inversions are not "exactly once per
boundary crossing". -/
theorem C4_counterexample_inversions_without_crossing :
    (¬ insideX 800 (900:ℚ) ∧
     ¬ insideX 800 ((update 800 600 ⟨900, 300, 1/2, 0, 2⟩).x) ∧
     ¬ insideX 800 ((update 800 600 (update 800 600 ⟨900, 300, 1/2, 0, 2⟩)).x)) ∧
    (update 800 600 ⟨900, 300, 1/2, 0, 2⟩).vx = -(1/2) ∧
    (update 800 600 (update 800 600 ⟨900, 300, 1/2, 0, 2⟩)).vx = 1/2 := by
  norm_num [update, insideX]

/-- C4 amended: at every single step, a nonzero velocity component's sign
inverts exactly when the step's new coordinate lies outside the stored band
(at most one inversion per axis per step); while a particle stays outside the
band — possible after a shrink resize — it inverts on every step, so one
boundary crossing can be accompanied by more than one inversion. -/
theorem C4_amended_inversion_iff_outside (w h : ℚ) (p : Particle) :
    (p.vx ≠ 0 → ((update w h p).vx = -p.vx ↔ p.x + p.vx < 0 ∨ p.x + p.vx > w)) ∧
    (p.vy ≠ 0 → ((update w h p).vy = -p.vy ↔ p.y + p.vy < 0 ∨ p.y + p.vy > h)) := by
  constructor
  · intro hv
    have hupd : (update w h p).vx =
        if p.x + p.vx < 0 ∨ p.x + p.vx > w then -p.vx else p.vx := rfl
    rw [hupd]
    by_cases hc : p.x + p.vx < 0 ∨ p.x + p.vx > w
    · rw [if_pos hc]
      exact iff_of_true rfl hc
    · rw [if_neg hc]
      constructor
      · intro he
        exact absurd (by linarith [he.symm ▸ (rfl : p.vx = p.vx)] : p.vx = 0) hv
      · intro hcc
        exact absurd hcc hc
  · intro hv
    have hupd : (update w h p).vy =
        if p.y + p.vy < 0 ∨ p.y + p.vy > h then -p.vy else p.vy := rfl
    rw [hupd]
    by_cases hc : p.y + p.vy < 0 ∨ p.y + p.vy > h
    · rw [if_pos hc]
      exact iff_of_true rfl hc
    · rw [if_neg hc]
      constructor
      · intro he
        exact absurd (by linarith [he.symm ▸ (rfl : p.vy = p.vy)] : p.vy = 0) hv
      · intro hcc
        exact absurd hcc hc

/-- Witness for C4 amended: the bounce at x = 799.9, vx = 0.5 on an 800-wide
surface inverts vx because 800.4 is outside the band. -/
theorem C4_amended_witness :
    (update 800 600 ⟨7999/10, 300, 1/2, 0, 2⟩).vx = -(1/2) ↔
      (7999/10 : ℚ) + 1/2 < 0 ∨ (7999/10 : ℚ) + 1/2 > 800 :=
  (C4_amended_inversion_iff_outside 800 600 ⟨7999/10, 300, 1/2, 0, 2⟩).1 (by norm_num)

/-- C2: in the connection pass a line is drawn for a pair exactly when its
Euclidean distance is below 150; when drawn its opacity is exactly
1 - distance / 150 (distance 75 gives opacity 1/2); pairs at distance 150 or
more draw nothing; and the slice-based double loop considers every unordered
pair of distinct particle slots exactly once. -/
theorem C2_connection_pass :
    (∀ p1 p2 : Particle, (connectionLine p1 p2).isSome ↔ pairDistance p1 p2 < 150) ∧
    (∀ p1 p2 : Particle, ∀ o : ℝ, connectionLine p1 p2 = some o →
      o = 1 - pairDistance p1 p2 / 150) ∧
    (pairDistance ⟨0, 0, 0, 0, 1⟩ ⟨75, 0, 0, 0, 1⟩ = 75 ∧
      connectionLine ⟨0, 0, 0, 0, 1⟩ ⟨75, 0, 0, 0, 1⟩ = some (1/2)) ∧
    (∀ p1 p2 : Particle, 150 ≤ pairDistance p1 p2 → connectionLine p1 p2 = none) ∧
    (∀ (ps : List Particle) (i j : ℕ) (hi : i < ps.length) (hj : j < ps.length),
      i ≠ j →
      (pairsList ps.enum).count ((i, ps[i]), (j, ps[j])) +
        (pairsList ps.enum).count ((j, ps[j]), (i, ps[i])) = 1) ∧
    (∀ ps : List Particle,
      pairsList ps = (pairsList ps.enum).map fun q => (q.1.2, q.2.2)) := by
  have h75 : pairDistance ⟨0, 0, 0, 0, 1⟩ ⟨75, 0, 0, 0, 1⟩ = 75 := by
    unfold pairDistance
    push_cast
    norm_num
    rw [show (5625 : ℝ) = 75 ^ 2 by norm_num]
    exact Real.sqrt_sq (by norm_num)
  refine ⟨?_, ?_, ⟨h75, ?_⟩, ?_, ?_, ?_⟩
  · intro p1 p2
    by_cases hd : pairDistance p1 p2 < 150 <;> simp [connectionLine, hd]
  · intro p1 p2 o ho
    by_cases hd : pairDistance p1 p2 < 150
    · simp only [connectionLine, if_pos hd, Option.some.injEq] at ho
      exact ho.symm
    · simp [connectionLine, hd] at ho
  · rw [connectionLine, h75]
    norm_num
  · intro p1 p2 hd
    simp [connectionLine, not_lt.mpr hd]
  · intro ps i j hi hj hij
    have hin : i < ps.enum.length := by simpa [List.enum_length] using hi
    have hjn : j < ps.enum.length := by simpa [List.enum_length] using hj
    have hmi : (i, ps[i]) ∈ ps.enum := by
      rw [← List.getElem_enum ps i hin]
      exact List.getElem_mem hin
    have hmj : (j, ps[j]) ∈ ps.enum := by
      rw [← List.getElem_enum ps j hjn]
      exact List.getElem_mem hjn
    exact count_pairsList_add (nodup_enum ps)
      (fun hc => hij (congrArg Prod.fst hc)) hmi hmj
  · intro ps
    conv_lhs => rw [← List.enum_map_snd ps]
    rw [pairsList_map]

/-- Witness for C2 at a concrete pair and a concrete two-particle list. -/
theorem C2_connection_pass_witness :
    ((1 : ℝ)/2 = 1 - pairDistance ⟨0, 0, 0, 0, 1⟩ ⟨75, 0, 0, 0, 1⟩ / 150) ∧
    ((pairsList ([⟨0, 0, 0, 0, 1⟩, ⟨75, 0, 0, 0, 1⟩] : List Particle).enum).count
        ((0, (⟨0, 0, 0, 0, 1⟩ : Particle)), (1, (⟨75, 0, 0, 0, 1⟩ : Particle))) +
      (pairsList ([⟨0, 0, 0, 0, 1⟩, ⟨75, 0, 0, 0, 1⟩] : List Particle).enum).count
        ((1, (⟨75, 0, 0, 0, 1⟩ : Particle)), (0, (⟨0, 0, 0, 0, 1⟩ : Particle))) = 1) :=
  ⟨C2_connection_pass.2.1 ⟨0, 0, 0, 0, 1⟩ ⟨75, 0, 0, 0, 1⟩ (1/2)
      C2_connection_pass.2.2.1.2,
   C2_connection_pass.2.2.2.2.1 [⟨0, 0, 0, 0, 1⟩, ⟨75, 0, 0, 0, 1⟩] 0 1
      (by norm_num) (by norm_num) (by norm_num)⟩

/-- C5: the visibility flag of a section is monotone — once it reads true, it
still reads true after any further delivered entries, intersecting or not —
and a section for which every delivered event either targets another section
or carries a visible fraction below the 0.1 threshold reads false for the
whole lifetime. -/
theorem C5_visibility_monotone_and_default_false :
    (∀ (m : List (String × Bool)) (es : List Entry) (id : String),
      lookupVis m id = true → lookupVis (applyEntries m es) id = true) ∧
    (∀ (evs : List (String × ℚ)) (id : String),
      (∀ q ∈ evs, q.1 = id → q.2 < observerThreshold) →
      lookupVis (applyEntries [] (evs.map fun q => deliver q.1 q.2)) id = false) := by
  constructor
  · intro m es id h
    induction es generalizing m with
    | nil => exact h
    | cons e t ih =>
      refine ih (applyEntry m e) ?_
      unfold applyEntry
      by_cases hi : e.isIntersecting = true
      · rw [if_pos hi]
        by_cases hid : id = e.targetId <;> simp [lookupVis, hid, h]
      · rw [if_neg hi]
        exact h
  · intro evs id hq
    refine lookupVis_applyEntries_false _ [] rfl ?_
    intro e he hid
    obtain ⟨q, hqm, rfl⟩ := List.mem_map.mp he
    have hlt : q.2 < observerThreshold := hq q hqm hid
    simp only [deliver, decide_eq_false_iff_not]
    exact not_le.mpr hlt

/-- Witness for C5: the "concepts" flag set by a qualifying event survives a
later non-intersecting event, and "features", whose only event carries
fraction 0, reads false. -/
theorem C5_visibility_witness :
    lookupVis (applyEntries [("concepts", true)]
      [⟨"features", true⟩, ⟨"concepts", false⟩]) "concepts" = true ∧
    lookupVis (applyEntries []
      ([("concepts", (1:ℚ)/2), ("features", 0)].map fun q => deliver q.1 q.2))
      "features" = false :=
  ⟨C5_visibility_monotone_and_default_false.1 [("concepts", true)]
      [⟨"features", true⟩, ⟨"concepts", false⟩] "concepts" (by simp [lookupVis]),
   C5_visibility_monotone_and_default_false.2 [("concepts", (1:ℚ)/2), ("features", 0)]
      "features" (by
        intro q hqm
        rcases List.mem_cons.mp hqm with rfl | hqm
        · intro hid
          exact absurd hid (by decide)
        · rcases List.mem_cons.mp hqm with rfl | hqm
          · intro _
            norm_num [observerThreshold]
          · cases hqm)⟩

/-- C6: exactly 80 particles are created at activation, one frame step keeps
the collection the same length, and after any number of frame steps the
collection still has exactly the 80 created slots. -/
theorem C6_eighty_particles_forever :
    particleCount = 80 ∧
    (∀ (w h : ℚ) (rand : ℕ → ℚ), (initParticles w h rand).length = 80) ∧
    (∀ (w h : ℚ) (ps : List Particle), (stepParticles w h ps).length = ps.length) ∧
    (∀ (w h : ℚ) (rand : ℕ → ℚ) (n : ℕ),
      ((stepParticles w h)^[n] (initParticles w h rand)).length = 80) := by
  refine ⟨rfl, fun w h rand => by simp [initParticles, particleCount],
    fun w h ps => by simp [stepParticles], fun w h rand n => ?_⟩
  induction n with
  | zero => simp [initParticles, particleCount]
  | succ k ih =>
    rw [Function.iterate_succ_apply']
    simpa [stepParticles] using ih

/-- C7: with every random draw in [0, 1) and positive surface dimensions, the
constructed particle has position in [0, w) × [0, h), velocity components in
[-1/4, 1/4) and radius in [1, 3); moreover the construction maps the box of
draws bijectively onto that box of particles — every admissible particle tuple
is hit by draws in [0, 1) (an explicit affine preimage) and by at most one
draw tuple — which transports the uniform distribution of the draws onto the
stated ranges. -/
theorem C7_init_ranges_and_bijectivity :
    (∀ w h r1 r2 r3 r4 r5 : ℚ, 0 < w → 0 < h →
      0 ≤ r1 → r1 < 1 → 0 ≤ r2 → r2 < 1 → 0 ≤ r3 → r3 < 1 →
      0 ≤ r4 → r4 < 1 → 0 ≤ r5 → r5 < 1 →
      (0 ≤ (mkParticle w h r1 r2 r3 r4 r5).x ∧ (mkParticle w h r1 r2 r3 r4 r5).x < w) ∧
      (0 ≤ (mkParticle w h r1 r2 r3 r4 r5).y ∧ (mkParticle w h r1 r2 r3 r4 r5).y < h) ∧
      (-(1/4) ≤ (mkParticle w h r1 r2 r3 r4 r5).vx ∧ (mkParticle w h r1 r2 r3 r4 r5).vx < 1/4) ∧
      (-(1/4) ≤ (mkParticle w h r1 r2 r3 r4 r5).vy ∧ (mkParticle w h r1 r2 r3 r4 r5).vy < 1/4) ∧
      (1 ≤ (mkParticle w h r1 r2 r3 r4 r5).size ∧ (mkParticle w h r1 r2 r3 r4 r5).size < 3)) ∧
    (∀ w h x y vx vy s : ℚ, 0 < w → 0 < h →
      0 ≤ x → x < w → 0 ≤ y → y < h →
      -(1/4) ≤ vx → vx < 1/4 → -(1/4) ≤ vy → vy < 1/4 → 1 ≤ s → s < 3 →
      mkParticle w h (x/w) (y/h) (2*vx + 1/2) (2*vy + 1/2) ((s-1)/2) = ⟨x, y, vx, vy, s⟩ ∧
      (0 ≤ x/w ∧ x/w < 1) ∧ (0 ≤ y/h ∧ y/h < 1) ∧
      (0 ≤ 2*vx + 1/2 ∧ 2*vx + 1/2 < 1) ∧ (0 ≤ 2*vy + 1/2 ∧ 2*vy + 1/2 < 1) ∧
      (0 ≤ (s-1)/2 ∧ (s-1)/2 < 1)) ∧
    (∀ w h a1 a2 a3 a4 a5 b1 b2 b3 b4 b5 : ℚ, 0 < w → 0 < h →
      mkParticle w h a1 a2 a3 a4 a5 = mkParticle w h b1 b2 b3 b4 b5 →
      a1 = b1 ∧ a2 = b2 ∧ a3 = b3 ∧ a4 = b4 ∧ a5 = b5) := by
  refine ⟨?_, ?_, ?_⟩
  · intro w h r1 r2 r3 r4 r5 hw hh h10 h11 h20 h21 h30 h31 h40 h41 h50 h51
    simp only [mkParticle]
    refine ⟨⟨mul_nonneg h10 hw.le, ?_⟩, ⟨mul_nonneg h20 hh.le, ?_⟩,
      ⟨by linarith, by linarith⟩, ⟨by linarith, by linarith⟩,
      ⟨by linarith, by linarith⟩⟩
    · nlinarith
    · nlinarith
  · intro w h x y vx vy s hw hh hx0 hxw hy0 hyh hv1 hv2 hv3 hv4 hs1 hs3
    have hwne : w ≠ 0 := ne_of_gt hw
    have hhne : h ≠ 0 := ne_of_gt hh
    refine ⟨?_, ⟨div_nonneg hx0 hw.le, (div_lt_one hw).mpr hxw⟩,
      ⟨div_nonneg hy0 hh.le, (div_lt_one hh).mpr hyh⟩,
      ⟨by linarith, by linarith⟩, ⟨by linarith, by linarith⟩,
      ⟨by linarith, by linarith⟩⟩
    simp only [mkParticle, Particle.mk.injEq]
    refine ⟨div_mul_cancel₀ x hwne, div_mul_cancel₀ y hhne, by ring, by ring, by ring⟩
  · intro w h a1 a2 a3 a4 a5 b1 b2 b3 b4 b5 hw hh heq
    have hwne : w ≠ 0 := ne_of_gt hw
    have hhne : h ≠ 0 := ne_of_gt hh
    simp only [mkParticle, Particle.mk.injEq] at heq
    obtain ⟨e1, e2, e3, e4, e5⟩ := heq
    exact ⟨mul_right_cancel₀ hwne e1, mul_right_cancel₀ hhne e2,
      by linarith, by linarith, by linarith⟩

/-- Witness for C7 at the concrete draws (1/2, 1/2, 1/2, 1/2, 1/2) on an
800 × 600 surface and at the concrete particle (400, 300, 0, 0, 2). -/
theorem C7_init_ranges_witness :
    ((0 ≤ (mkParticle 800 600 (1/2) (1/2) (1/2) (1/2) (1/2)).x ∧
        (mkParticle 800 600 (1/2) (1/2) (1/2) (1/2) (1/2)).x < 800) ∧
      (0 ≤ (mkParticle 800 600 (1/2) (1/2) (1/2) (1/2) (1/2)).y ∧
        (mkParticle 800 600 (1/2) (1/2) (1/2) (1/2) (1/2)).y < 600) ∧
      (-(1/4) ≤ (mkParticle 800 600 (1/2) (1/2) (1/2) (1/2) (1/2)).vx ∧
        (mkParticle 800 600 (1/2) (1/2) (1/2) (1/2) (1/2)).vx < 1/4) ∧
      (-(1/4) ≤ (mkParticle 800 600 (1/2) (1/2) (1/2) (1/2) (1/2)).vy ∧
        (mkParticle 800 600 (1/2) (1/2) (1/2) (1/2) (1/2)).vy < 1/4) ∧
      (1 ≤ (mkParticle 800 600 (1/2) (1/2) (1/2) (1/2) (1/2)).size ∧
        (mkParticle 800 600 (1/2) (1/2) (1/2) (1/2) (1/2)).size < 3)) ∧
    (mkParticle 800 600 ((400:ℚ)/800) ((300:ℚ)/600) (2*0 + 1/2) (2*0 + 1/2) (((2:ℚ)-1)/2) =
        ⟨400, 300, 0, 0, 2⟩ ∧
      (0 ≤ (400:ℚ)/800 ∧ (400:ℚ)/800 < 1) ∧ (0 ≤ (300:ℚ)/600 ∧ (300:ℚ)/600 < 1) ∧
      (0 ≤ 2*(0:ℚ) + 1/2 ∧ 2*(0:ℚ) + 1/2 < 1) ∧ (0 ≤ 2*(0:ℚ) + 1/2 ∧ 2*(0:ℚ) + 1/2 < 1) ∧
      (0 ≤ ((2:ℚ)-1)/2 ∧ ((2:ℚ)-1)/2 < 1)) ∧
    ((1:ℚ)/2 = 1/2 ∧ (1:ℚ)/2 = 1/2 ∧ (1:ℚ)/2 = 1/2 ∧ (1:ℚ)/2 = 1/2 ∧ (1:ℚ)/2 = 1/2) :=
  ⟨C7_init_ranges_and_bijectivity.1 800 600 (1/2) (1/2) (1/2) (1/2) (1/2)
      (by norm_num) (by norm_num) (by norm_num) (by norm_num) (by norm_num) (by norm_num)
      (by norm_num) (by norm_num) (by norm_num) (by norm_num) (by norm_num) (by norm_num),
   C7_init_ranges_and_bijectivity.2.1 800 600 400 300 0 0 2
      (by norm_num) (by norm_num) (by norm_num) (by norm_num) (by norm_num) (by norm_num)
      (by norm_num) (by norm_num) (by norm_num) (by norm_num) (by norm_num) (by norm_num),
   C7_init_ranges_and_bijectivity.2.2 800 600 (1/2) (1/2) (1/2) (1/2) (1/2)
      (1/2) (1/2) (1/2) (1/2) (1/2) (by norm_num) (by norm_num) rfl⟩

/-- C8: when the canvas is not mounted, or when 2d-context acquisition fails,
the effect is a total no-op: it returns the inactive outcome, under which no
particles exist, no resize listener is installed and no frame loop is
started; no error value exists anywhere (the function is total). -/
theorem C8_unavailable_surface_noop :
    (∀ rand : ℕ → ℚ, particleEffectSetup none rand = none) ∧
    (∀ (c : Canvas) (rand : ℕ → ℚ), c.ctxAvailable = false →
      particleEffectSetup (some c) rand = none) ∧
    (∀ (canvas : Option Canvas) (rand : ℕ → ℚ),
      particleEffectSetup canvas rand = none →
      setupParticles (particleEffectSetup canvas rand) = [] ∧
      setupListener (particleEffectSetup canvas rand) = false ∧
      setupLoop (particleEffectSetup canvas rand) = false) := by
  refine ⟨fun rand => rfl, fun c rand hc => ?_, fun canvas rand hn => ?_⟩
  · simp [particleEffectSetup, hc]
  · rw [hn]
    exact ⟨rfl, rfl, rfl⟩

/-- Witness for C8: a mounted 800 × 600 canvas whose getContext fails yields
the inactive outcome, and the inactive outcome has no particles, listener or
loop. -/
theorem C8_unavailable_surface_noop_witness :
    particleEffectSetup (some ⟨800, 600, false⟩) (fun _ => 0) = none ∧
    (setupParticles (particleEffectSetup none fun _ => 0) = [] ∧
      setupListener (particleEffectSetup none fun _ => 0) = false ∧
      setupLoop (particleEffectSetup none fun _ => 0) = false) :=
  ⟨C8_unavailable_surface_noop.2.1 ⟨800, 600, false⟩ (fun _ => 0) rfl,
   C8_unavailable_surface_noop.2.2 none (fun _ => 0) rfl⟩

/-- C9: the teardown cleanup cancels the scheduled frame, removes the resize
listener and disconnects the observer while touching neither the particles
nor the visibility record; and from any torn-down state, no delivered event —
frame ticks, resizes or intersection batches included — changes anything ever
again. -/
theorem C9_teardown_stops_everything :
    (∀ s : SysState,
      (stepEvent s .teardown).frameScheduled = false ∧
      (stepEvent s .teardown).resizeListener = false ∧
      (stepEvent s .teardown).observerConnected = false ∧
      (stepEvent s .teardown).particles = s.particles ∧
      (stepEvent s .teardown).vis = s.vis) ∧
    (∀ (s : SysState) (evs : List Event),
      s.frameScheduled = false → s.resizeListener = false →
      s.observerConnected = false → runEvents s evs = s) := by
  refine ⟨fun s => ⟨rfl, rfl, rfl, rfl, rfl⟩, fun s evs hf hr ho => ?_⟩
  induction evs with
  | nil => rfl
  | cons e t ih =>
    unfold runEvents
    rw [List.foldl_cons, stepEvent_inactive hf hr ho e]
    exact ih

/-- Witness for C9: a torn-down state absorbs a frame tick, an intersection
batch and a resize without any change. -/
theorem C9_teardown_stops_everything_witness :
    runEvents ⟨false, false, false, 800, 600, [], []⟩
      [Event.frame, Event.intersections [⟨"concepts", true⟩], Event.resize 100 100] =
      ⟨false, false, false, 800, 600, [], []⟩ :=
  C9_teardown_stops_everything.2 ⟨false, false, false, 800, 600, [], []⟩
    [Event.frame, Event.intersections [⟨"concepts", true⟩], Event.resize 100 100]
    rfl rfl rfl

/-- C10: the interleaved per-particle loop of the source (update particle i,
draw particle i, proceed to i + 1, with the connection pass afterwards) is
equal, as a whole frame, to the spec reading that first advances all
particles and then draws all circles and connection lines: each update reads
only its own particle and the shared bounds, so every circle and every
segment endpoint uses the post-update positions either way. -/
theorem C10_interleaved_equals_two_pass :
    ∀ (w h : ℚ) (ps : List Particle), animateFrame w h ps = animateFrameSpec w h ps := by
  intro w h ps
  unfold animateFrame animateFrameSpec
  rw [updateDrawPass_eq]

end ObsidianGuide
